import Mathlib

/-!
Verification of the GitWrite offline sync core against its specification.

The definitions below are a shallow embedding of the JavaScript source:

* `utf8ToBase64` / `base64ToUtf8` embed the UTF-8-safe base64 helpers
  (`btoa(unescape(encodeURIComponent(s)))` and its inverse): strings are
  lists of Unicode scalar values, `utf8Encode`/`utf8Decode` model the
  UTF-8 byte serialisation performed by `encodeURIComponent` /
  `decodeURIComponent`, and `base64Encode`/`base64Decode` model
  `btoa`/`atob` on byte sequences.
* `QueuedJob`, `idbPut`, `idbGet`, `updateQueueJob`, `addToSyncQueue`,
  `clearCompletedJobs`, `processSyncQueue` embed the IndexedDB-backed
  sync-queue engine of `app.js`.
* `commitToGitHub` embeds the queued-job publisher, with the three
  network calls it makes abstracted into a `CommitOracle`.
* `saveGitHubSettings` / `restoreNote` embed the settings persistence
  paths over an association-list model of `localStorage` /
  `sessionStorage`.

Definitions come first, then the theorems about them.
-/

namespace GitWrite

/-! ## UTF-8 encoding (semantics of encodeURIComponent / decodeURIComponent) -/

/-- A Unicode scalar value: a code point outside the surrogate range. -/
def ScalarValue (c : Nat) : Prop := c < 1114112 ∧ (c < 55296 ∨ 57344 ≤ c)

instance (c : Nat) : Decidable (ScalarValue c) := by
  unfold ScalarValue; infer_instance

/-- UTF-8 byte serialisation of one scalar value. -/
def utf8EncodeChar (c : Nat) : List Nat :=
  if c < 128 then [c]
  else if c < 2048 then [192 + c / 64, 128 + c % 64]
  else if c < 65536 then [224 + c / 4096, 128 + c / 64 % 64, 128 + c % 64]
  else [240 + c / 262144, 128 + c / 4096 % 64, 128 + c / 64 % 64, 128 + c % 64]

/-- UTF-8 byte serialisation of a string (list of scalar values). -/
def utf8Encode (s : List Nat) : List Nat := s.flatMap utf8EncodeChar

/-- Validates one UTF-8 continuation byte and extracts its low six bits. -/
def contBits (x : Option Nat) : Option Nat :=
  match x with
  | some b => if 128 ≤ b ∧ b < 192 then some (b - 128) else none
  | none => none

/-- Strict decoding of one UTF-8 sequence from the front of a byte list,
returning the scalar value and the remaining bytes. -/
def utf8DecodeOne (l : List Nat) : Option (Nat × List Nat) :=
  match l with
  | [] => none
  | b :: bs =>
    if b < 128 then some (b, bs)
    else if b < 192 then none
    else if b < 224 then
      (contBits bs.head?).bind fun x1 =>
        let c := (b - 192) * 64 + x1
        if 128 ≤ c then some (c, bs.tail) else none
    else if b < 240 then
      (contBits bs.head?).bind fun x1 =>
      (contBits bs.tail.head?).bind fun x2 =>
        let c := (b - 224) * 4096 + x1 * 64 + x2
        if 2048 ≤ c ∧ (c < 55296 ∨ 57344 ≤ c) then some (c, bs.tail.tail)
        else none
    else if b < 248 then
      (contBits bs.head?).bind fun x1 =>
      (contBits bs.tail.head?).bind fun x2 =>
      (contBits bs.tail.tail.head?).bind fun x3 =>
        let c := (b - 240) * 262144 + x1 * 4096 + x2 * 64 + x3
        if 65536 ≤ c ∧ c < 1114112 then some (c, bs.tail.tail.tail)
        else none
    else none

/-- Iterated strict UTF-8 decoding; the fuel argument (one unit per
decoded scalar, each consuming at least one byte) makes the recursion
structural, and the input length is always enough fuel. -/
def utf8DecodeAux : Nat → List Nat → Option (List Nat)
  | _, [] => some []
  | 0, _ :: _ => none
  | fuel + 1, b :: bs =>
    match utf8DecodeOne (b :: bs) with
    | none => none
    | some (c, r) => (utf8DecodeAux fuel r).map (c :: ·)

/-- Strict UTF-8 decoding of a byte sequence, as performed by
`decodeURIComponent`; malformed input yields `none`. -/
def utf8Decode (l : List Nat) : Option (List Nat) := utf8DecodeAux l.length l

/-! ## Base64 (semantics of btoa / atob) -/

/-- The base64 alphabet: character code of digit `n` (0 ≤ n < 64). -/
def b64Char (n : Nat) : Nat :=
  if n < 26 then 65 + n
  else if n < 52 then 97 + (n - 26)
  else if n < 62 then 48 + (n - 52)
  else if n = 62 then 43
  else 47

/-- Inverse of the base64 alphabet; `none` for a character outside it. -/
def b64Index (ch : Nat) : Option Nat :=
  if 65 ≤ ch ∧ ch ≤ 90 then some (ch - 65)
  else if 97 ≤ ch ∧ ch ≤ 122 then some (ch - 97 + 26)
  else if 48 ≤ ch ∧ ch ≤ 57 then some (ch - 48 + 52)
  else if ch = 43 then some 62
  else if ch = 47 then some 63
  else none

/-- Base64 encoding of a byte sequence, as performed by `btoa`
(61 is the character code of the padding sign). -/
def base64Encode : List Nat → List Nat
  | [] => []
  | [b0] => [b64Char (b0 / 4), b64Char (b0 % 4 * 16), 61, 61]
  | [b0, b1] =>
    [b64Char (b0 / 4), b64Char (b0 % 4 * 16 + b1 / 16),
      b64Char (b1 % 16 * 4), 61]
  | b0 :: b1 :: b2 :: rest =>
    b64Char (b0 / 4) :: b64Char (b0 % 4 * 16 + b1 / 16) ::
      b64Char (b1 % 16 * 4 + b2 / 64) :: b64Char (b2 % 64) ::
      base64Encode rest

/-- Base64 decoding of a character sequence, as performed by `atob`;
invalid input yields `none`. -/
def base64Decode : List Nat → Option (List Nat)
  | [] => some []
  | c0 :: c1 :: c2 :: c3 :: rest =>
    if c2 = 61 ∧ c3 = 61 ∧ rest = [] then
      (b64Index c0).bind fun n0 => (b64Index c1).bind fun n1 =>
        some [n0 * 4 + n1 / 16]
    else if c3 = 61 ∧ rest = [] then
      (b64Index c0).bind fun n0 => (b64Index c1).bind fun n1 =>
      (b64Index c2).bind fun n2 =>
        some [n0 * 4 + n1 / 16, n1 % 16 * 16 + n2 / 4]
    else
      (b64Index c0).bind fun n0 => (b64Index c1).bind fun n1 =>
      (b64Index c2).bind fun n2 => (b64Index c3).bind fun n3 =>
      (base64Decode rest).map fun tl =>
        (n0 * 4 + n1 / 16) :: (n1 % 16 * 16 + n2 / 4) :: (n2 % 4 * 64 + n3) :: tl
  | _ => none

/-! ## The UTF-8-safe publish encoding of the source
(`utf8ToBase64` / `base64ToUtf8`), used by the interactive publish path
(`GitHubService.createOrUpdateFile` / `getFile`) and by the queued-job
path (`commitToGitHub`). -/

/-- Embeds `btoa(unescape(encodeURIComponent(str)))`. -/
def utf8ToBase64 (s : List Nat) : List Nat := base64Encode (utf8Encode s)

/-- Embeds `decodeURIComponent(escape(atob(str)))`; `none` models a
thrown decoding exception. -/
def base64ToUtf8 (b : List Nat) : Option (List Nat) :=
  (base64Decode b).bind utf8Decode

/-! ## Sync-queue data model

A `QueuedJob` is a JavaScript object; a field that the code may leave
unset is an `Option` whose `none` models the absent (`undefined`)
field.  The queue object store is created with `keyPath: 'id'` and no
key generator. -/

inductive JobStatus where
  | pending
  | completed
  | failed
deriving DecidableEq, Repr

structure QueuedJob where
  id : Option Nat := none
  jobType : Option String := none
  content : String := ""
  timestamp : Option String := none
  status : Option JobStatus := none
  error : Option String := none
  createdAt : Option String := none
  owner : Option String := none
  repo : Option String := none
  path : Option String := none
  branch : Option String := none
  token : Option String := none
  commitMessage : Option String := none
deriving DecidableEq, Repr

/-- IndexedDB `store.put(value)` on the queue store: with in-line key
path `id` and no key generator, a value without an `id` throws
`DataError`; otherwise the record with that key (keys are unique) is
replaced, or the value is appended. -/
def idbPut (db : List QueuedJob) (j : QueuedJob) :
    Except String (List QueuedJob) :=
  match j.id with
  | none => .error "DataError"
  | some k =>
    if db.any (fun r => r.id == some k) then
      .ok (db.map fun r => if r.id == some k then j else r)
    else .ok (db ++ [j])

/-- IndexedDB `store.get(key)`: an `undefined` key throws `DataError`;
otherwise the stored record with that key, if any. -/
def idbGet (db : List QueuedJob) (key : Option Nat) :
    Except String (Option QueuedJob) :=
  match key with
  | none => .error "DataError"
  | some k => .ok (db.find? (fun r => r.id == some k))

/-- IndexedDB `store.delete(key)`: removes the record with that key. -/
def idbDelete (db : List QueuedJob) (key : Option Nat) : List QueuedJob :=
  db.filter (fun r => !(r.id == key))

/-- `addToSyncQueue(job)`: `store.put(job)`; a rejected put propagates
as an error to the awaiting caller. -/
def addToSyncQueue (db : List QueuedJob) (job : QueuedJob) :
    Except String (List QueuedJob) :=
  idbPut db job

/-- The record built at the enqueue site in `saveToGitHub`'s catch
block: only `type`, `content` and `timestamp` are set. -/
def offlineEnqueueRecord (editorContent : String) (now : String) :
    QueuedJob :=
  { jobType := some "github",
    content := editorContent,
    timestamp := some now }

/-- The catch block of `saveToGitHub`: emit a failure notification;
when offline, additionally enqueue the snapshot record and notify.
Returns the queue store, the notifications emitted, and the exception
escaping the handler, if any. -/
def saveToGitHubCatch (errMsg : String) (online : Bool)
    (db : List QueuedJob) (editorContent now : String) :
    List QueuedJob × List String × Option String :=
  let notif := ["GitHub save failed: " ++ errMsg]
  if online then (db, notif, none)
  else
    match addToSyncQueue db (offlineEnqueueRecord editorContent now) with
    | .ok db2 => (db2, notif ++ ["Added to sync queue"], none)
    | .error e => (db, notif, some e)

/-- `updateQueueJob(jobId, updates)`: get the record, `Object.assign`
the updates onto it and put it back; rejects when the record is
missing. -/
def updateQueueJob (db : List QueuedJob) (jobId : Option Nat)
    (upd : QueuedJob → QueuedJob) : Except String (List QueuedJob) :=
  match idbGet db jobId with
  | .error e => .error e
  | .ok (some job) => idbPut db (upd job)
  | .ok none => .error "Job not found"

/-- `clearCompletedJobs()`: read all jobs via the `status` index with
key `completed`, then delete each by id. -/
def clearCompletedJobs (db : List QueuedJob) : List QueuedJob :=
  (db.filter (fun r => r.status == some JobStatus.completed)).foldl
    (fun d j => idbDelete d j.id) db

/-! ## The queued-job publisher `commitToGitHub` -/

structure HttpResp where
  ok : Bool
  status : Nat := 200
  defaultBranch : Option String := none
  sha : Option String := none
  message : Option String := none
  data : String := ""
deriving DecidableEq, Repr

/-- Outcome of one `fetch` call: the network layer throws, or a
response arrives (its relevant JSON fields carried alongside). -/
inductive FetchOutcome where
  | netError (msg : String)
  | resp (r : HttpResp)
deriving DecidableEq, Repr

/-- The three HTTP calls `commitToGitHub` can make, abstracted. -/
structure CommitOracle where
  repoFetch : FetchOutcome
  fileFetch : FetchOutcome
  putFetch : FetchOutcome
deriving DecidableEq, Repr

/-- The record `commitToGitHub` resolves with:
`{success:true, data}` or `{success:false, error}`. -/
inductive CommitResult where
  | ok (data : String)
  | err (msg : String)
deriving DecidableEq, Repr

/-- JavaScript truth test on a possibly-absent string:
`undefined` and the empty string are falsy. -/
def jsFalsy (o : Option String) : Bool :=
  match o with
  | none => true
  | some s => s == ""

/-- Embeds `job.content` into the code-point model. -/
def contentCodes (s : String) : List Nat := s.data.map Char.toNat

/-- The try block of `commitToGitHub`: resolve the branch when the job
has none, fetch the current sha, then PUT.  `Except.error` is a thrown
exception inside the try block. -/
def commitToGitHubTry (job : QueuedJob) (o : CommitOracle) :
    Except String String := do
  let branch0 := job.branch
  let _branch ←
    if jsFalsy branch0 then
      match o.repoFetch with
      | .netError m => Except.error m
      | .resp r => pure (if r.ok then r.defaultBranch else branch0)
    else pure branch0
  let _sha ←
    match o.fileFetch with
    | .netError m => Except.error m
    | .resp r => pure (if r.ok then r.sha else none)
  let _content := utf8ToBase64 (contentCodes job.content)
  match o.putFetch with
  | .netError m => Except.error m
  | .resp r =>
    if r.ok then pure r.data
    else
      Except.error
        (match r.message with
         | some m => if m == "" then "HTTP " ++ toString r.status else m
         | none => "HTTP " ++ toString r.status)

/-- `commitToGitHub(job)`: the try block wrapped in the catch that
converts any thrown error into `{success:false, error}`. -/
def commitToGitHub (job : QueuedJob) (o : CommitOracle) : CommitResult :=
  match commitToGitHubTry job o with
  | .ok d => .ok d
  | .error e => .err e

/-! ## The drain engine `processSyncQueue` -/

structure AppState where
  db : List QueuedJob
  syncQueue : List QueuedJob
  isSyncing : Bool
  online : Bool
  indicator : String
  notifications : List String
deriving DecidableEq, Repr

/-- Result of one invocation of the drain: the final state, the jobs
handed to the publisher in order, and the exception that escaped the
async function, if any. -/
structure DrainResult where
  state : AppState
  attempted : List QueuedJob
  thrown : Option String
deriving DecidableEq, Repr

def markCompleted (j : QueuedJob) : QueuedJob :=
  { j with status := some JobStatus.completed }

def markFailed (msg : String) (j : QueuedJob) : QueuedJob :=
  { j with
    status := some JobStatus.failed,
    error := some msg }

/-- The `for (const job of pendingJobs)` loop body: publish, then write
the status transition back to the store and notify.  A rejected store
update aborts the whole async function (there is no handler around
it). -/
def drainLoop (commit : QueuedJob → CommitResult)
    (jobs : List QueuedJob) (st : AppState) : DrainResult :=
  match jobs with
  | [] => ⟨st, [], none⟩
  | job :: rest =>
    match commit job with
    | .ok _ =>
      match updateQueueJob st.db job.id markCompleted with
      | .ok db2 =>
        let stNext : AppState :=
          { st with
            db := db2,
            notifications := st.notifications ++ ["Note synced to GitHub"] }
        let r := drainLoop commit rest stNext
        ⟨r.state, job :: r.attempted, r.thrown⟩
      | .error e => ⟨st, [job], some e⟩
    | .err msg =>
      match updateQueueJob st.db job.id (markFailed msg) with
      | .ok db2 =>
        let stNext : AppState :=
          { st with
            db := db2,
            notifications := st.notifications ++ ["Sync failed: " ++ msg] }
        let r := drainLoop commit rest stNext
        ⟨r.state, job :: r.attempted, r.thrown⟩
      | .error e => ⟨st, [job], some e⟩

/-- The pending-job selection `syncQueue.filter(job => job.status === 'pending')`. -/
def selectPending (jobs : List QueuedJob) : List QueuedJob :=
  jobs.filter (fun j => j.status == some JobStatus.pending)

/-- `loadSyncQueue()`: reload the in-memory snapshot from the store. -/
def loadSyncQueue (st : AppState) : AppState := { st with syncQueue := st.db }

/-- `processSyncQueue()`: guard, select pending jobs, drain them
sequentially, reload and clear the syncing flag. -/
def processSyncQueue (commit : QueuedJob → CommitResult)
    (st : AppState) : DrainResult :=
  if st.isSyncing || !st.online then ⟨st, [], none⟩
  else
    let pendingJobs := selectPending st.syncQueue
    if pendingJobs.isEmpty then ⟨st, [], none⟩
    else
      let st1 : AppState :=
        { st with
          isSyncing := true,
          indicator := "syncing" }
      let r := drainLoop commit pendingJobs st1
      match r.thrown with
      | some _ => r
      | none =>
        let st2 := loadSyncQueue r.state
        let st3 : AppState :=
          { st2 with
            isSyncing := false,
            indicator := if st2.online then "online" else "offline" }
        ⟨st3, r.attempted, none⟩

/-! ## Settings persistence (`localStorage` / `sessionStorage`) -/

structure GithubConfig where
  token : String
  owner : String
  repo : String
  branch : String
  pathTemplate : String
  commitMessage : String
  rememberToken : Option Bool
deriving DecidableEq, Repr

/-- The `this.github` initial value from `initializeProperties`. -/
def defaultGithubConfig : GithubConfig :=
  { token := "", owner := "", repo := "", branch := "",
    pathTemplate := "notes/\x7b\x7bdate\x7d\x7d.md",
    commitMessage := "Add note \x7b\x7bdate\x7d\x7d",
    rememberToken := some false }

/-- A web storage area holding (key, parsed github JSON) pairs. -/
abbrev Storage := List (String × GithubConfig)

def getItem (s : Storage) (k : String) : Option GithubConfig :=
  (s.find? (fun p => p.1 == k)).map (·.2)

def setItem (s : Storage) (k : String) (v : GithubConfig) : Storage :=
  if s.any (fun p => p.1 == k) then
    s.map (fun p => if p.1 == k then (k, v) else p)
  else s ++ [(k, v)]

/-- `saveGitHubSettings()`: validate the form fields, reassign
`this.github` to a fresh object (which has no `rememberToken` field),
then write it to `localStorage` under the key `github-settings`, with
the credential blanked unless `this.github.rememberToken` is truthy on
the freshly assigned object. -/
def saveGitHubSettings (tokenField ownerField repoField branchField
    pathField msgField : String) (st : GithubConfig × Storage) :
    GithubConfig × Storage :=
  if tokenField == "" || ownerField == "" || repoField == "" then st
  else
    let github2 : GithubConfig :=
      { token := tokenField, owner := ownerField, repo := repoField,
        branch := if branchField == "" then "main" else branchField,
        pathTemplate :=
          if pathField == "" then "notes/\x7b\x7bdate\x7d\x7d.md"
          else pathField,
        commitMessage :=
          if msgField == "" then "Add note \x7b\x7bdate\x7d\x7d"
          else msgField,
        rememberToken := none }
    let stored :=
      { github2 with token :=
          if github2.rememberToken == some true then tokenField else "" }
    (github2, setItem st.2 "github-settings" stored)

/-- Spread-merge of a stored config onto the defaults: every field of
the stored object wins; a field absent from it keeps the default. -/
def mergeConfig (d g : GithubConfig) : GithubConfig :=
  { g with rememberToken :=
      match g.rememberToken with
      | none => d.rememberToken
      | some b => some b }

/-- `restoreNote()`'s settings restoration: read `gitwrite-github` from
`localStorage`, falling back to `sessionStorage`, and merge onto the
defaults; otherwise the defaults stand. -/
def restoreNote (ls ss : Storage) : GithubConfig :=
  match getItem ls "gitwrite-github" with
  | some g => mergeConfig defaultGithubConfig g
  | none =>
    match getItem ss "gitwrite-github" with
    | some g => mergeConfig defaultGithubConfig g
    | none => defaultGithubConfig

/-! ## Proof-support definitions -/

/-- The status transition the drain applies to a job, as a function of
the publisher's outcome on it. -/
def applyCommit (commit : QueuedJob → CommitResult) (j : QueuedJob) :
    QueuedJob :=
  match commit j with
  | .ok _ => markCompleted j
  | .err m => markFailed m j

/-- The notification the drain emits for a job. -/
def drainNotif (commit : QueuedJob → CommitResult) (j : QueuedJob) :
    String :=
  match commit j with
  | .ok _ => "Note synced to GitHub"
  | .err m => "Sync failed: " ++ m

/-- The queue store after a drain over `jobs`: every record whose id
matches a drained job carries that job's transition; others are
untouched. -/
def dbAfter (commit : QueuedJob → CommitResult)
    (jobs db : List QueuedJob) : List QueuedJob :=
  db.map fun r =>
    match jobs.find? (fun j => j.id == r.id) with
    | some j => applyCommit commit j
    | none => r

/-! ## Concrete sample data for witnesses and counterexamples -/

def jobOne : QueuedJob :=
  { id := some 1, content := "alpha", status := some JobStatus.pending,
    owner := some "alice", repo := some "journal",
    path := some "notes/a.md", branch := some "main",
    token := some "tkn", commitMessage := some "Add note" }

def jobTwo : QueuedJob :=
  { id := some 2, content := "beta", status := some JobStatus.pending }

def jobFailedPrev : QueuedJob :=
  { id := some 3, content := "gamma", status := some JobStatus.failed,
    error := some "HTTP 409" }

def jobDone : QueuedJob :=
  { id := some 4, content := "delta", status := some JobStatus.completed }

/-- A job left in the in-memory snapshot whose record is gone from the
store. -/
def ghostJob : QueuedJob :=
  { id := some 5, content := "stale", status := some JobStatus.pending }

/-- An idle online state whose snapshot agrees with the store. -/
def freshState (db : List QueuedJob) : AppState :=
  { db := db, syncQueue := db, isSyncing := false, online := true,
    indicator := "online", notifications := [] }

/-- A state whose snapshot holds a pending job missing from the store. -/
def staleState : AppState :=
  { db := [], syncQueue := [ghostJob], isSyncing := false, online := true,
    indicator := "online", notifications := [] }

/-- A publisher that always succeeds. -/
def alwaysOk : QueuedJob → CommitResult := fun _ => CommitResult.ok "sha1"

/-- A publisher that always fails with a conflict. -/
def alwaysConflict : QueuedJob → CommitResult :=
  fun _ => CommitResult.err "Conflict"

/-- The code points of the string "café ☕". -/
def cafeCodes : List Nat := [99, 97, 102, 233, 32, 9749]

/-- An oracle for a clean create-or-update: file absent (404), PUT
accepted. -/
def happyOracle : CommitOracle :=
  { repoFetch := FetchOutcome.resp { ok := true, defaultBranch := some "main" },
    fileFetch := FetchOutcome.resp { ok := false, status := 404 },
    putFetch := FetchOutcome.resp { ok := true, data := "committed" } }

/-! ## Theorems: the UTF-8 / base64 encoding layer -/

theorem utf8DecodeOne_encodeChar (c : Nat) (h : ScalarValue c)
    (bs : List Nat) :
    utf8DecodeOne (utf8EncodeChar c ++ bs) = some (c, bs) := by
  obtain ⟨h1, h2⟩ := h
  by_cases hc1 : c < 128
  · simp only [utf8EncodeChar, if_pos hc1, List.cons_append, List.nil_append,
      utf8DecodeOne]
  · by_cases hc2 : c < 2048
    · simp only [utf8EncodeChar, if_neg hc1, if_pos hc2, List.cons_append,
        List.nil_append, utf8DecodeOne]
      rw [if_neg (by omega), if_neg (by omega), if_pos (by omega)]
      rw [List.head?_cons]
      simp only [contBits]
      rw [if_pos (by omega), Option.some_bind, List.tail_cons]
      simp only [Option.ite_none_right_eq_some, Option.some.injEq,
        Prod.mk.injEq, and_true]
      omega
    · by_cases hc3 : c < 65536
      · simp only [utf8EncodeChar, if_neg hc1, if_neg hc2, if_pos hc3,
          List.cons_append, List.nil_append, utf8DecodeOne]
        rw [if_neg (by omega), if_neg (by omega), if_neg (by omega),
          if_pos (by omega)]
        simp only [List.head?_cons, List.tail_cons, contBits]
        rw [if_pos (by omega), Option.some_bind, if_pos (by omega),
          Option.some_bind]
        simp only [Option.ite_none_right_eq_some, Option.some.injEq,
          Prod.mk.injEq, and_true]
        omega
      · simp only [utf8EncodeChar, if_neg hc1, if_neg hc2, if_neg hc3,
          List.cons_append, List.nil_append, utf8DecodeOne]
        rw [if_neg (by omega), if_neg (by omega), if_neg (by omega),
          if_neg (by omega), if_pos (by omega)]
        simp only [List.head?_cons, List.tail_cons, contBits]
        rw [if_pos (by omega), Option.some_bind, if_pos (by omega),
          Option.some_bind, if_pos (by omega), Option.some_bind]
        simp only [Option.ite_none_right_eq_some, Option.some.injEq,
          Prod.mk.injEq, and_true]
        omega

theorem utf8EncodeChar_length_pos (c : Nat) :
    0 < (utf8EncodeChar c).length := by
  unfold utf8EncodeChar
  split
  · simp
  · split
    · simp
    · split
      · simp
      · simp

theorem utf8DecodeAux_nil (fuel : Nat) : utf8DecodeAux fuel [] = some [] := by
  cases fuel <;> rfl

theorem utf8DecodeAux_step (fuel : Nat) (c : Nat) (h : ScalarValue c)
    (bs : List Nat) :
    utf8DecodeAux (fuel + 1) (utf8EncodeChar c ++ bs) =
      (utf8DecodeAux fuel bs).map (c :: ·) := by
  obtain ⟨b, bs2, hsh⟩ : ∃ b bs2, utf8EncodeChar c ++ bs = b :: bs2 := by
    cases hE : utf8EncodeChar c with
    | nil => exact absurd hE (by
        have := utf8EncodeChar_length_pos c
        intro hcon
        rw [hcon] at this
        simp at this)
    | cons b t => exact ⟨b, t ++ bs, by simp [hE]⟩
  rw [hsh]
  simp only [utf8DecodeAux]
  rw [← hsh, utf8DecodeOne_encodeChar c h bs]

theorem utf8Encode_decode_fuel (s : List Nat) :
    ∀ (fuel : Nat), (∀ c ∈ s, ScalarValue c) →
    (utf8Encode s).length ≤ fuel →
    utf8DecodeAux fuel (utf8Encode s) = some s := by
  induction s with
  | nil =>
    intro fuel _ _
    simp only [utf8Encode, List.flatMap_nil]
    exact utf8DecodeAux_nil fuel
  | cons c s ih =>
    intro fuel h hf
    have hcons : utf8Encode (c :: s) = utf8EncodeChar c ++ utf8Encode s := by
      simp [utf8Encode]
    have hc : ScalarValue c := h c (List.mem_cons_self c s)
    have hlen : 0 < (utf8EncodeChar c).length := utf8EncodeChar_length_pos c
    rw [hcons] at hf ⊢
    rw [List.length_append] at hf
    cases fuel with
    | zero => omega
    | succ f =>
      rw [utf8DecodeAux_step f c hc (utf8Encode s)]
      rw [ih f (fun x hx => h x (List.mem_cons_of_mem c hx)) (by omega)]
      rfl

theorem utf8Encode_decode (s : List Nat) (h : ∀ c ∈ s, ScalarValue c) :
    utf8Decode (utf8Encode s) = some s :=
  utf8Encode_decode_fuel s (utf8Encode s).length h le_rfl

theorem utf8EncodeChar_lt (c : Nat) (h : ScalarValue c) :
    ∀ b ∈ utf8EncodeChar c, b < 256 := by
  obtain ⟨h1, _⟩ := h
  intro b hb
  unfold utf8EncodeChar at hb
  by_cases hc1 : c < 128
  · simp [hc1] at hb; omega
  · by_cases hc2 : c < 2048
    · simp [hc1, hc2] at hb
      rcases hb with hb | hb <;> omega
    · by_cases hc3 : c < 65536
      · simp [hc1, hc2, hc3] at hb
        rcases hb with hb | hb | hb <;> omega
      · simp [hc1, hc2, hc3] at hb
        rcases hb with hb | hb | hb | hb <;> omega

theorem utf8Encode_lt (s : List Nat) (h : ∀ c ∈ s, ScalarValue c) :
    ∀ b ∈ utf8Encode s, b < 256 := by
  intro b hb
  simp only [utf8Encode, List.mem_flatMap] at hb
  obtain ⟨c, hc, hbc⟩ := hb
  exact utf8EncodeChar_lt c (h c hc) b hbc

theorem b64Index_b64Char : ∀ n, n < 64 → b64Index (b64Char n) = some n := by
  decide

theorem b64Char_ne_61 : ∀ n, n < 64 → b64Char n ≠ 61 := by
  decide

theorem base64Encode_decode (bs : List Nat) (h : ∀ b ∈ bs, b < 256) :
    base64Decode (base64Encode bs) = some bs := by
  induction bs using base64Encode.induct with
  | case1 => rfl
  | case2 b0 =>
    have hb0 : b0 < 256 := h b0 (by simp)
    simp only [base64Encode, base64Decode]
    rw [if_pos (show True ∧ True ∧ True from ⟨trivial, trivial, trivial⟩)]
    rw [b64Index_b64Char _ (by omega), Option.some_bind,
      b64Index_b64Char _ (by omega), Option.some_bind]
    simp only [Option.some.injEq, List.cons.injEq, and_true]
    omega
  | case3 b0 b1 =>
    have hb0 : b0 < 256 := h b0 (by simp)
    have hb1 : b1 < 256 := h b1 (by simp)
    simp only [base64Encode, base64Decode]
    rw [if_neg (fun hc => b64Char_ne_61 _ (by omega) hc.1)]
    rw [if_pos (show True ∧ True from ⟨trivial, trivial⟩)]
    rw [b64Index_b64Char _ (by omega), Option.some_bind,
      b64Index_b64Char _ (by omega), Option.some_bind,
      b64Index_b64Char _ (by omega), Option.some_bind]
    simp only [Option.some.injEq, List.cons.injEq, and_true]
    constructor <;> omega
  | case4 b0 b1 b2 rest ih =>
    have hb0 : b0 < 256 := h b0 (by simp)
    have hb1 : b1 < 256 := h b1 (by simp)
    have hb2 : b2 < 256 := h b2 (by simp)
    have hrest : ∀ b ∈ rest, b < 256 := fun b hb => h b (by simp [hb])
    simp only [base64Encode, base64Decode]
    rw [if_neg (fun hc => b64Char_ne_61 _ (by omega) hc.1)]
    rw [if_neg (fun hc => b64Char_ne_61 _ (by omega) hc.1)]
    rw [b64Index_b64Char _ (by omega), Option.some_bind,
      b64Index_b64Char _ (by omega), Option.some_bind,
      b64Index_b64Char _ (by omega), Option.some_bind,
      b64Index_b64Char _ (by omega), Option.some_bind]
    rw [ih hrest]
    simp only [Option.map_some', Option.some.injEq, List.cons.injEq]
    refine ⟨by omega, by omega, by omega, trivial⟩

/-! ## Theorems: store and drain lemmas -/

theorem applyCommit_id (commit : QueuedJob → CommitResult) (j : QueuedJob) :
    (applyCommit commit j).id = j.id := by
  unfold applyCommit markCompleted markFailed
  cases commit j <;> rfl

theorem find?_id_of_mem {l : List QueuedJob} {j : QueuedJob}
    (hnd : (l.map (fun r => r.id)).Nodup) (hj : j ∈ l) :
    l.find? (fun r => r.id == j.id) = some j := by
  induction l with
  | nil => cases hj
  | cons a l ih =>
    rw [List.map_cons, List.nodup_cons] at hnd
    rcases List.mem_cons.mp hj with rfl | hj2
    · exact List.find?_cons_of_pos _ (by simp)
    · have hne : ¬ (a.id == j.id) = true := by
        simp only [beq_iff_eq]
        intro he
        exact hnd.1 (by rw [he]; exact List.mem_map_of_mem (fun r => r.id) hj2)
      have hstep : List.find? (fun r => r.id == j.id) (a :: l) =
          List.find? (fun r => r.id == j.id) l :=
        List.find?_cons_of_neg _ hne
      rw [hstep]
      exact ih hnd.2 hj2

theorem updateQueueJob_spec {db : List QueuedJob} {j : QueuedJob}
    (hnd : (db.map (fun r => r.id)).Nodup) (hj : j ∈ db)
    {k : Nat} (hk : j.id = some k)
    (upd : QueuedJob → QueuedJob) (hupd : (upd j).id = j.id) :
    updateQueueJob db j.id upd =
      .ok (db.map fun r => if r.id == j.id then upd j else r) := by
  have hfind : db.find? (fun r => r.id == some k) = some j := by
    rw [← hk]
    exact find?_id_of_mem hnd hj
  have hget : idbGet db j.id = .ok (some j) := by
    rw [hk]
    simp only [idbGet]
    rw [hfind]
  have hupdk : (upd j).id = some k := hupd.trans hk
  have hany : db.any (fun r => r.id == some k) = true :=
    List.any_eq_true.mpr ⟨j, hj, by simp [hk]⟩
  unfold updateQueueJob
  rw [hget]
  show idbPut db (upd j) = _
  simp only [idbPut, hupdk, hany, if_true, hk]

theorem ids_after_replace {db : List QueuedJob} {jid : Option Nat}
    {j2 : QueuedJob} (hid : j2.id = jid) :
    ((db.map (fun r => if r.id == jid then j2 else r)).map (fun r => r.id)) =
      db.map (fun r => r.id) := by
  rw [List.map_map]
  apply List.map_congr_left
  intro r _
  simp only [Function.comp_apply]
  by_cases h : r.id = jid
  · rw [if_pos (by simp [h]), hid, h]
  · rw [if_neg (by simp [h])]

theorem mem_replace_of_ne {db : List QueuedJob} {j2 : QueuedJob}
    {jid : Option Nat} {r : QueuedJob} (hr : r ∈ db) (hne : r.id ≠ jid) :
    r ∈ db.map (fun x => if x.id == jid then j2 else x) := by
  have hfix : (if r.id == jid then j2 else r) = r := by
    rw [if_neg (by simp [hne])]
  rw [← hfix]
  exact List.mem_map_of_mem _ hr

theorem dbAfter_nil (commit : QueuedJob → CommitResult)
    (db : List QueuedJob) : dbAfter commit [] db = db := by
  unfold dbAfter
  simp [List.find?_nil]

theorem dbAfter_cons (commit : QueuedJob → CommitResult) (j : QueuedJob)
    (rest db : List QueuedJob) (hne : ∀ j2 ∈ rest, j2.id ≠ j.id) :
    dbAfter commit rest
        (db.map fun r => if r.id == j.id then applyCommit commit j else r) =
      dbAfter commit (j :: rest) db := by
  unfold dbAfter
  rw [List.map_map]
  apply List.map_congr_left
  intro r hr
  simp only [Function.comp_apply]
  by_cases h : r.id = j.id
  · rw [if_pos (by simp [h])]
    have hfn : rest.find? (fun j2 => j2.id == (applyCommit commit j).id) = none :=
      List.find?_eq_none.mpr (fun x hx => by
        simp only [beq_iff_eq, applyCommit_id]
        exact hne x hx)
    have hpos : (j :: rest).find? (fun j2 => j2.id == r.id) = some j :=
      List.find?_cons_of_pos _ (by simp [h])
    rw [hfn, hpos]
  · rw [if_neg (by simp [h])]
    have hneg : (j :: rest).find? (fun j2 => j2.id == r.id) =
        rest.find? (fun j2 => j2.id == r.id) :=
      List.find?_cons_of_neg _ (by
        simp only [beq_iff_eq]
        exact fun he => h he.symm)
    rw [hneg]

theorem drainLoop_spec (commit : QueuedJob → CommitResult) :
    ∀ (jobs : List QueuedJob) (st : AppState),
    (∀ j ∈ jobs, j ∈ st.db) →
    (∀ j ∈ jobs, j.id.isSome) →
    ((jobs.map (fun j => j.id)).Nodup) →
    ((st.db.map (fun r => r.id)).Nodup) →
    drainLoop commit jobs st =
      ⟨{ st with
          db := dbAfter commit jobs st.db,
          notifications := st.notifications ++ jobs.map (drainNotif commit) },
        jobs, none⟩ := by
  intro jobs
  induction jobs with
  | nil =>
    intro st _ _ _ _
    simp [drainLoop, dbAfter_nil]
  | cons j rest ih =>
    intro st hsub hids hjnd hnd
    have hjdb : j ∈ st.db := hsub j (List.mem_cons_self j rest)
    obtain ⟨k, hk⟩ :=
      Option.isSome_iff_exists.mp (hids j (List.mem_cons_self j rest))
    rw [List.map_cons, List.nodup_cons] at hjnd
    have hne : ∀ j2 ∈ rest, j2.id ≠ j.id := by
      intro j2 h2 he
      exact hjnd.1 (by rw [← he]; exact List.mem_map_of_mem (fun x => x.id) h2)
    have hsub2 : ∀ j2 ∈ rest, j2 ∈ st.db :=
      fun j2 h2 => hsub j2 (List.mem_cons_of_mem j h2)
    have hids2 : ∀ j2 ∈ rest, j2.id.isSome :=
      fun j2 h2 => hids j2 (List.mem_cons_of_mem j h2)
    cases hc : commit j with
    | ok d =>
      have hApp : applyCommit commit j = markCompleted j := by
        unfold applyCommit; rw [hc]
      have hNot : drainNotif commit j = "Note synced to GitHub" := by
        unfold drainNotif; rw [hc]
      have hupdate := updateQueueJob_spec hnd hjdb hk markCompleted rfl
      have hsub2m : ∀ j2 ∈ rest,
          j2 ∈ st.db.map (fun r => if r.id == j.id then markCompleted j else r) :=
        fun j2 h2 => mem_replace_of_ne (hsub2 j2 h2) (hne j2 h2)
      have hnd2 : (((st.db.map
          (fun r => if r.id == j.id then markCompleted j else r)).map
          (fun r => r.id)).Nodup) := by
        rw [ids_after_replace (show (markCompleted j).id = j.id from rfl)]
        exact hnd
      have hdrain := ih
        { st with
          db := st.db.map (fun r => if r.id == j.id then markCompleted j else r),
          notifications := st.notifications ++ ["Note synced to GitHub"] }
        hsub2m hids2 hjnd.2 hnd2
      simp only [drainLoop, hc, hupdate, hdrain]
      rw [← hApp, dbAfter_cons commit j rest st.db hne]
      simp [hNot, List.append_assoc]
    | err m =>
      have hApp : applyCommit commit j = markFailed m j := by
        unfold applyCommit; rw [hc]
      have hNot : drainNotif commit j = "Sync failed: " ++ m := by
        unfold drainNotif; rw [hc]
      have hupdate := updateQueueJob_spec hnd hjdb hk (markFailed m) rfl
      have hsub2m : ∀ j2 ∈ rest,
          j2 ∈ st.db.map (fun r => if r.id == j.id then markFailed m j else r) :=
        fun j2 h2 => mem_replace_of_ne (hsub2 j2 h2) (hne j2 h2)
      have hnd2 : (((st.db.map
          (fun r => if r.id == j.id then markFailed m j else r)).map
          (fun r => r.id)).Nodup) := by
        rw [ids_after_replace (show (markFailed m j).id = j.id from rfl)]
        exact hnd
      have hdrain := ih
        { st with
          db := st.db.map (fun r => if r.id == j.id then markFailed m j else r),
          notifications := st.notifications ++ ["Sync failed: " ++ m] }
        hsub2m hids2 hjnd.2 hnd2
      simp only [drainLoop, hc, hupdate, hdrain]
      rw [← hApp, dbAfter_cons commit j rest st.db hne]
      simp [hNot, List.append_assoc]

theorem drainLoop_isSyncing (commit : QueuedJob → CommitResult)
    (jobs : List QueuedJob) : ∀ st : AppState,
    (drainLoop commit jobs st).state.isSyncing = st.isSyncing := by
  induction jobs with
  | nil => intro st; rfl
  | cons j rest ih =>
    intro st
    simp only [drainLoop]
    split
    · split
      · exact ih _
      · rfl
    · split
      · exact ih _
      · rfl

theorem drainLoop_attempted_mem (commit : QueuedJob → CommitResult)
    (jobs : List QueuedJob) : ∀ (st : AppState) (j : QueuedJob),
    j ∈ (drainLoop commit jobs st).attempted → j ∈ jobs := by
  induction jobs with
  | nil =>
    intro st j h
    simp only [drainLoop] at h
    cases h
  | cons jb rest ih =>
    intro st j h
    simp only [drainLoop] at h
    split at h
    · split at h
      · rcases List.mem_cons.mp h with rfl | h2
        · exact List.mem_cons_self _ _
        · exact List.mem_cons_of_mem _ (ih _ _ h2)
      · rcases List.mem_cons.mp h with rfl | h2
        · exact List.mem_cons_self _ _
        · cases h2
    · split at h
      · rcases List.mem_cons.mp h with rfl | h2
        · exact List.mem_cons_self _ _
        · exact List.mem_cons_of_mem _ (ih _ _ h2)
      · rcases List.mem_cons.mp h with rfl | h2
        · exact List.mem_cons_self _ _
        · cases h2

theorem dbAfter_selectPending (commit : QueuedJob → CommitResult)
    (db : List QueuedJob) (hnd : (db.map (fun r => r.id)).Nodup) :
    dbAfter commit (selectPending db) db =
      db.map (fun r =>
        if r.status == some JobStatus.pending then applyCommit commit r
        else r) := by
  unfold dbAfter
  apply List.map_congr_left
  intro r hr
  by_cases hp : (r.status == some JobStatus.pending) = true
  · have hrsel : r ∈ selectPending db := List.mem_filter.mpr ⟨hr, hp⟩
    have hsnd : ((selectPending db).map (fun j => j.id)).Nodup :=
      List.Nodup.sublist ((List.filter_sublist db).map _) hnd
    rw [find?_id_of_mem hsnd hrsel, if_pos hp]
  · have hfn : (selectPending db).find? (fun j => j.id == r.id) = none := by
      apply List.find?_eq_none.mpr
      intro x hx
      simp only [beq_iff_eq]
      intro he
      have hxdb : x ∈ db := (List.mem_filter.mp hx).1
      have hxr : x = r := List.inj_on_of_nodup_map hnd hxdb hr he
      have hxp := (List.mem_filter.mp hx).2
      rw [hxr] at hxp
      exact hp hxp
    rw [hfn, if_neg hp]

theorem processSyncQueue_drain (commit : QueuedJob → CommitResult)
    (st : AppState) (hsync : st.isSyncing = false) (hon : st.online = true)
    (hfresh : st.syncQueue = st.db)
    (hnd : (st.db.map (fun r => r.id)).Nodup)
    (hids : ∀ j ∈ st.db, j.id.isSome)
    (hne : (selectPending st.db).isEmpty = false) :
    processSyncQueue commit st =
      ⟨{ st with
          db := dbAfter commit (selectPending st.db) st.db,
          syncQueue := dbAfter commit (selectPending st.db) st.db,
          isSyncing := false,
          indicator := "online",
          notifications := st.notifications ++
            (selectPending st.db).map (drainNotif commit) },
        selectPending st.db, none⟩ := by
  have hsub : ∀ j ∈ selectPending st.db, j ∈ st.db :=
    fun j hj => (List.mem_filter.mp hj).1
  have hids2 : ∀ j ∈ selectPending st.db, j.id.isSome :=
    fun j hj => hids j (hsub j hj)
  have hsnd : ((selectPending st.db).map (fun j => j.id)).Nodup :=
    List.Nodup.sublist ((List.filter_sublist st.db).map _) hnd
  have hdrain := drainLoop_spec commit (selectPending st.db)
    { db := st.db, syncQueue := st.db, isSyncing := true, online := true,
      indicator := "syncing", notifications := st.notifications }
    hsub hids2 hsnd hnd
  unfold processSyncQueue
  rw [hsync, hon, hfresh]
  simp only [Bool.not_true, Bool.or_false, Bool.false_eq_true, if_false, hne,
    hdrain, loadSyncQueue, if_true]

theorem foldl_idbDelete (L : List QueuedJob) :
    ∀ db : List QueuedJob,
    L.foldl (fun d j => idbDelete d j.id) db =
      db.filter (fun r => !(L.any (fun j => r.id == j.id))) := by
  induction L with
  | nil =>
    intro db
    simp [List.any_nil]
  | cons j L ih =>
    intro db
    rw [List.foldl_cons, ih]
    unfold idbDelete
    rw [List.filter_filter]
    apply List.filter_congr
    intro r _
    simp [List.any_cons, Bool.not_or, Bool.and_comm]

theorem clearCompleted_spec (db : List QueuedJob)
    (hnd : (db.map (fun r => r.id)).Nodup) :
    clearCompletedJobs db =
      db.filter (fun r => !(r.status == some JobStatus.completed)) := by
  unfold clearCompletedJobs
  rw [foldl_idbDelete]
  apply List.filter_congr
  intro r hr
  have hany : ((db.filter (fun x => x.status == some JobStatus.completed)).any
      (fun j => r.id == j.id)) = (r.status == some JobStatus.completed) := by
    by_cases hc : r.status = some JobStatus.completed
    · rw [show (r.status == some JobStatus.completed) = true by simp [hc]]
      exact List.any_eq_true.mpr
        ⟨r, List.mem_filter.mpr ⟨hr, by simp [hc]⟩, by simp⟩
    · rw [show (r.status == some JobStatus.completed) = false by simp [hc]]
      apply List.any_eq_false.mpr
      intro x hx
      simp only [beq_iff_eq]
      intro he
      have hxdb : x ∈ db := (List.mem_filter.mp hx).1
      have hxr : r = x := List.inj_on_of_nodup_map hnd hr hxdb he
      have hxp := (List.mem_filter.mp hx).2
      rw [← hxr] at hxp
      exact hc (by simpa using hxp)
  rw [hany]

theorem commitToGitHubTry_ok {job : QueuedJob} {o : CommitOracle}
    {d : String} (h : commitToGitHubTry job o = Except.ok d) :
    ∃ r, o.putFetch = FetchOutcome.resp r ∧ r.ok = true ∧ d = r.data := by
  obtain ⟨rf, ff, pf⟩ := o
  unfold commitToGitHubTry at h
  by_cases hb : jsFalsy job.branch = true
  · simp only [hb, if_true] at h
    rcases rf with m | r1
    · simp [Bind.bind, Except.bind, Pure.pure, Except.pure] at h
    · rcases ff with m2 | r2
      · simp [Bind.bind, Except.bind, Pure.pure, Except.pure] at h
      · rcases pf with m3 | r3
        · simp [Bind.bind, Except.bind, Pure.pure, Except.pure] at h
        · simp only [Bind.bind, Except.bind, Pure.pure, Except.pure] at h
          by_cases hok : r3.ok = true
          · rw [if_pos hok] at h
            exact ⟨r3, rfl, hok, (Except.ok.inj h).symm⟩
          · rw [if_neg hok] at h
            cases h
  · simp only [Bool.not_eq_true] at hb
    simp only [hb, Bool.false_eq_true, if_false] at h
    rcases ff with m2 | r2
    · simp [Bind.bind, Except.bind, Pure.pure, Except.pure] at h
    · rcases pf with m3 | r3
      · simp [Bind.bind, Except.bind, Pure.pure, Except.pure] at h
      · simp only [Bind.bind, Except.bind, Pure.pure, Except.pure] at h
        by_cases hok : r3.ok = true
        · rw [if_pos hok] at h
          exact ⟨r3, rfl, hok, (Except.ok.inj h).symm⟩
        · rw [if_neg hok] at h
          cases h

theorem commitToGitHubTry_run {job : QueuedJob} {o : CommitOracle}
    {r : HttpResp} (hput : o.putFetch = FetchOutcome.resp r)
    (hok : r.ok = true)
    (hfile : ∀ m, o.fileFetch ≠ FetchOutcome.netError m)
    (hrepo : jsFalsy job.branch = true →
      ∀ m, o.repoFetch ≠ FetchOutcome.netError m) :
    commitToGitHubTry job o = Except.ok r.data := by
  obtain ⟨rf, ff, pf⟩ := o
  simp only at hput hfile hrepo
  subst hput
  rcases ff with m2 | r2
  · exact absurd rfl (hfile m2)
  · unfold commitToGitHubTry
    by_cases hb : jsFalsy job.branch = true
    · rcases rf with m1 | r1
      · exact absurd rfl (hrepo hb m1)
      · simp [hb, Bind.bind, Except.bind, Pure.pure, Except.pure, hok]
    · simp only [Bool.not_eq_true] at hb
      simp [hb, Bind.bind, Except.bind, Pure.pure, Except.pure, hok]

/-! ## Claim theorems -/

/-- Claim C1, evaluated at the failing input: an interactive publish
failure while offline builds a record carrying only `type`, `content`
and `timestamp` — no `id`, no `status: 'pending'`, no `createdAt` — so
the keyPath-`id` put rejects it with `DataError`: the store stays
empty, no pending entry is written, the "Added to sync queue"
notification is never emitted, and the rejection escapes the handler. -/
theorem offline_enqueue_never_persists :
    saveToGitHubCatch "Failed to fetch" false [] "draft" "2026-02-03" =
      ([], ["GitHub save failed: Failed to fetch"], some "DataError") ∧
    (offlineEnqueueRecord "draft" "2026-02-03").id = none ∧
    (offlineEnqueueRecord "draft" "2026-02-03").status = none ∧
    (offlineEnqueueRecord "draft" "2026-02-03").createdAt = none :=
  ⟨rfl, rfl, rfl, rfl⟩

/-- Claim C2: for every string of Unicode scalar values, including
multi-byte characters, the publish encoding round-trips exactly:
decoding with `base64ToUtf8` (the `getFile` read path) the base64
content produced by `utf8ToBase64` (used by both the interactive
`createOrUpdateFile` path and the queued-job `commitToGitHub` path)
returns the original string. -/
theorem publish_encoding_roundtrip (s : List Nat)
    (h : ∀ c ∈ s, ScalarValue c) :
    base64ToUtf8 (utf8ToBase64 s) = some s := by
  unfold base64ToUtf8 utf8ToBase64
  rw [base64Encode_decode _ (utf8Encode_lt s h), Option.some_bind,
    utf8Encode_decode s h]

/-- Witness for C2 at the code points of "café ☕". -/
theorem publish_encoding_roundtrip_witness :
    (∀ c ∈ cafeCodes, ScalarValue c) ∧
    base64ToUtf8 (utf8ToBase64 cafeCodes) = some cafeCodes :=
  ⟨by decide, publish_encoding_roundtrip cafeCodes (by decide)⟩

/-- Claim C3: draining a store of pending jobs against a publisher
that succeeds on every job attempts exactly the selected pending jobs,
one at a time in the original selection order, transitions every
pending job to `completed` in the store, leaves zero pending jobs, and
returns without an exception. -/
theorem drain_all_success (commit : QueuedJob → CommitResult)
    (st : AppState) (hok : ∀ j, ∃ d, commit j = CommitResult.ok d)
    (hsync : st.isSyncing = false) (hon : st.online = true)
    (hfresh : st.syncQueue = st.db)
    (hnd : (st.db.map (fun r => r.id)).Nodup)
    (hids : ∀ j ∈ st.db, j.id.isSome) :
    (processSyncQueue commit st).thrown = none ∧
    (processSyncQueue commit st).attempted = selectPending st.syncQueue ∧
    (processSyncQueue commit st).state.db =
      st.db.map (fun r =>
        if r.status == some JobStatus.pending then markCompleted r else r) ∧
    selectPending (processSyncQueue commit st).state.db = [] ∧
    (processSyncQueue commit st).state.isSyncing = false := by
  have hmap : dbAfter commit (selectPending st.db) st.db =
      st.db.map (fun r =>
        if r.status == some JobStatus.pending then markCompleted r
        else r) := by
    rw [dbAfter_selectPending commit st.db hnd]
    apply List.map_congr_left
    intro r _
    by_cases hp : (r.status == some JobStatus.pending) = true
    · rw [if_pos hp, if_pos hp]
      obtain ⟨d, hd⟩ := hok r
      unfold applyCommit
      rw [hd]
    · rw [if_neg hp, if_neg hp]
  have hnop : selectPending (st.db.map (fun r =>
      if r.status == some JobStatus.pending then markCompleted r
      else r)) = [] := by
    unfold selectPending
    rw [List.filter_eq_nil_iff]
    intro a ha
    rcases List.mem_map.mp ha with ⟨r, hr, rfl⟩
    by_cases hp : (r.status == some JobStatus.pending) = true
    · rw [if_pos hp]
      simp [markCompleted]
    · rw [if_neg hp]
      exact fun hcon => hp hcon
  by_cases hemp : (selectPending st.db).isEmpty = true
  · have hsel : selectPending st.db = [] := List.isEmpty_iff.mp hemp
    have hnp : ∀ r ∈ st.db, ¬ (r.status == some JobStatus.pending) = true := by
      intro r hr hp
      have hmemf : r ∈ selectPending st.db := List.mem_filter.mpr ⟨hr, hp⟩
      rw [hsel] at hmemf
      cases hmemf
    have hid : st.db.map (fun r =>
        if r.status == some JobStatus.pending then markCompleted r
        else r) = st.db := by
      have h1 : st.db.map (fun r =>
          if r.status == some JobStatus.pending then markCompleted r
          else r) = st.db.map (fun a => a) :=
        List.map_congr_left (fun a ha => by rw [if_neg (hnp a ha)])
      rw [h1, List.map_id']
    have hrun : processSyncQueue commit st = ⟨st, [], none⟩ := by
      unfold processSyncQueue
      rw [hsync, hon, hfresh]
      simp only [Bool.not_true, Bool.or_false, Bool.false_eq_true, if_false,
        hemp, if_true]
    rw [hrun]
    refine ⟨rfl, ?_, ?_, ?_, hsync⟩
    · rw [hfresh, hsel]
    · rw [hid]
    · exact hsel
  · have hne2 : (selectPending st.db).isEmpty = false := by
      cases h2 : (selectPending st.db).isEmpty
      · rfl
      · exact absurd h2 hemp
    rw [processSyncQueue_drain commit st hsync hon hfresh hnd hids hne2]
    refine ⟨rfl, ?_, ?_, ?_, rfl⟩
    · rw [hfresh]
    · exact hmap
    · rw [hmap]
      exact hnop

/-- Witness for C3 on a two-job pending queue with an
always-succeeding publisher. -/
theorem drain_all_success_witness :
    (processSyncQueue alwaysOk (freshState [jobOne, jobTwo])).thrown = none ∧
    (processSyncQueue alwaysOk (freshState [jobOne, jobTwo])).attempted =
      selectPending (freshState [jobOne, jobTwo]).syncQueue ∧
    selectPending
      (processSyncQueue alwaysOk (freshState [jobOne, jobTwo])).state.db =
      [] :=
  ⟨(drain_all_success alwaysOk (freshState [jobOne, jobTwo])
      (fun _ => ⟨"sha1", rfl⟩) rfl rfl rfl (by decide) (by decide)).1,
   (drain_all_success alwaysOk (freshState [jobOne, jobTwo])
      (fun _ => ⟨"sha1", rfl⟩) rfl rfl rfl (by decide) (by decide)).2.1,
   (drain_all_success alwaysOk (freshState [jobOne, jobTwo])
      (fun _ => ⟨"sha1", rfl⟩) rfl rfl rfl (by decide) (by decide)).2.2.2.1⟩

/-- Claim C4: when the publisher fails on the k-th selected job with
error e, the drain still returns without an exception, every selected
job is attempted (the batch is not aborted), and the store records job
k as `failed` with the error message on it. -/
theorem drain_failure_isolated (commit : QueuedJob → CommitResult)
    (st : AppState) (k : Nat) (e : String)
    (hsync : st.isSyncing = false) (hon : st.online = true)
    (hfresh : st.syncQueue = st.db)
    (hnd : (st.db.map (fun r => r.id)).Nodup)
    (hids : ∀ j ∈ st.db, j.id.isSome)
    (hk : k < (selectPending st.syncQueue).length)
    (he : commit ((selectPending st.syncQueue).get ⟨k, hk⟩) =
      CommitResult.err e) :
    (processSyncQueue commit st).thrown = none ∧
    (processSyncQueue commit st).attempted = selectPending st.syncQueue ∧
    markFailed e ((selectPending st.syncQueue).get ⟨k, hk⟩) ∈
      (processSyncQueue commit st).state.db := by
  have hjk : (selectPending st.syncQueue).get ⟨k, hk⟩ ∈
      selectPending st.syncQueue := List.get_mem _ _ _
  have hjksel : (selectPending st.syncQueue).get ⟨k, hk⟩ ∈
      selectPending st.db := by rw [← hfresh]; exact hjk
  have hjkdb : (selectPending st.syncQueue).get ⟨k, hk⟩ ∈ st.db :=
    (List.mem_filter.mp hjksel).1
  have hjkp : (((selectPending st.syncQueue).get ⟨k, hk⟩).status ==
      some JobStatus.pending) = true := (List.mem_filter.mp hjksel).2
  have hne2 : (selectPending st.db).isEmpty = false := by
    cases h2 : (selectPending st.db).isEmpty
    · rfl
    · exfalso
      rw [List.isEmpty_iff] at h2
      rw [h2] at hjksel
      cases hjksel
  rw [processSyncQueue_drain commit st hsync hon hfresh hnd hids hne2]
  refine ⟨rfl, by rw [hfresh], ?_⟩
  rw [dbAfter_selectPending commit st.db hnd]
  have himg : markFailed e ((selectPending st.syncQueue).get ⟨k, hk⟩) =
      (fun r => if r.status == some JobStatus.pending
        then applyCommit commit r else r)
      ((selectPending st.syncQueue).get ⟨k, hk⟩) := by
    simp only [if_pos hjkp]
    unfold applyCommit
    rw [he]
  rw [himg]
  exact List.mem_map_of_mem _ hjkdb

/-- Witness for C4 on a two-job pending queue with a publisher that
fails on the first selected job. -/
theorem drain_failure_isolated_witness :
    (processSyncQueue alwaysConflict (freshState [jobOne, jobTwo])).thrown =
      none ∧
    (processSyncQueue alwaysConflict
      (freshState [jobOne, jobTwo])).attempted =
      selectPending (freshState [jobOne, jobTwo]).syncQueue :=
  ⟨(drain_failure_isolated alwaysConflict (freshState [jobOne, jobTwo])
      0 "Conflict" rfl rfl rfl (by decide) (by decide) (by decide) rfl).1,
   (drain_failure_isolated alwaysConflict (freshState [jobOne, jobTwo])
      0 "Conflict" rfl rfl rfl (by decide) (by decide) (by decide) rfl).2.1⟩

/-- Counterexample to claim C5 as stated: with the queue holding a
single job left `failed` by a previous pass, a fresh online drain
attempts nothing — the failed job is not re-attempted and remains
`failed`. -/
theorem failed_job_not_retried :
    (processSyncQueue alwaysOk (freshState [jobFailedPrev])).attempted =
      [] ∧
    (processSyncQueue alwaysOk (freshState [jobFailedPrev])).state.db =
      [jobFailedPrev] ∧
    jobFailedPrev.status = some JobStatus.failed :=
  ⟨rfl, rfl, rfl⟩

/-- Claim C5 as amended: a drain pass hands the publisher only jobs
whose status is `pending`; jobs whose status is `failed` from a
previous pass are never selected or re-attempted. -/
theorem drain_attempts_only_pending (commit : QueuedJob → CommitResult)
    (st : AppState) (j : QueuedJob)
    (hj : j ∈ (processSyncQueue commit st).attempted) :
    j.status = some JobStatus.pending := by
  simp only [processSyncQueue] at hj
  split at hj
  · cases hj
  · split at hj
    · cases hj
    · split at hj
      · have hmem := drainLoop_attempted_mem commit
          (selectPending st.syncQueue) _ j hj
        have hp := (List.mem_filter.mp hmem).2
        simpa using hp
      · have hmem := drainLoop_attempted_mem commit
          (selectPending st.syncQueue) _ j hj
        have hp := (List.mem_filter.mp hmem).2
        simpa using hp

/-- Witness for the amended C5: the pending job of a one-job queue is
attempted and indeed has status pending. -/
theorem drain_attempts_only_pending_witness :
    jobOne ∈ (processSyncQueue alwaysOk (freshState [jobOne])).attempted ∧
    jobOne.status = some JobStatus.pending :=
  ⟨by decide,
   drain_attempts_only_pending alwaysOk (freshState [jobOne]) jobOne
     (by decide)⟩

/-- Counterexample to claim C6 as stated: draining a snapshot that
holds a pending job whose record is missing from the store makes the
per-job update reject; the exception escapes and isSyncing is left
true — the flag is not cleared on this exit path. -/
theorem syncing_flag_leaked_on_error :
    (processSyncQueue alwaysOk staleState).thrown = some "Job not found" ∧
    (processSyncQueue alwaysOk staleState).state.isSyncing = true :=
  ⟨rfl, rfl⟩

/-- Claim C6 as amended: the syncing flag is cleared on normal
completion of the whole batch and reload — on every exit without an
exception the flag equals its value on entry — but when a storage
update rejects mid-batch the drain exits with isSyncing still true. -/
theorem syncing_flag_on_exit (commit : QueuedJob → CommitResult)
    (st : AppState) :
    ((processSyncQueue commit st).thrown = none →
      (processSyncQueue commit st).state.isSyncing = st.isSyncing) ∧
    (∀ e, (processSyncQueue commit st).thrown = some e →
      (processSyncQueue commit st).state.isSyncing = true) := by
  by_cases hguard : (st.isSyncing || !st.online) = true
  · have hrun : processSyncQueue commit st = ⟨st, [], none⟩ := by
      unfold processSyncQueue
      rw [if_pos hguard]
    rw [hrun]
    exact ⟨fun _ => rfl, fun e he => Option.noConfusion he⟩
  · have hsy : st.isSyncing = false := by
      cases hs : st.isSyncing
      · rfl
      · exact absurd (by rw [hs]; rfl) hguard
    by_cases hemp : (selectPending st.syncQueue).isEmpty = true
    · have hrun : processSyncQueue commit st = ⟨st, [], none⟩ := by
        unfold processSyncQueue
        rw [if_neg hguard]
        simp only [hemp, if_true]
      rw [hrun]
      exact ⟨fun _ => rfl, fun e he => Option.noConfusion he⟩
    · have hsync1 := drainLoop_isSyncing commit (selectPending st.syncQueue)
        { st with isSyncing := true, indicator := "syncing" }
      simp only [Bool.not_eq_true] at hemp
      unfold processSyncQueue
      rw [if_neg hguard]
      simp only [hemp, Bool.false_eq_true, if_false]
      split
      · constructor
        · intro hnone
          next heq => rw [heq] at hnone; cases hnone
        · intro e _
          exact hsync1
      · exact ⟨fun _ => hsy.symm, fun e he => Option.noConfusion he⟩

/-- Witness for the amended C6: a clean one-job drain returns with the
flag back at its entry value (false). -/
theorem syncing_flag_on_exit_witness :
    (processSyncQueue alwaysOk (freshState [jobOne])).state.isSyncing =
      false :=
  (syncing_flag_on_exit alwaysOk (freshState [jobOne])).1 rfl

/-- Claim C7: invoking the drain while one is already marked active, or
while connectivity is down, returns immediately with the state
untouched, no job attempted and nothing thrown — so a second rapid
invocation during a drain is a no-op and at most one pass is active. -/
theorem drain_guard_noop (commit : QueuedJob → CommitResult)
    (st : AppState) (h : st.isSyncing = true ∨ st.online = false) :
    processSyncQueue commit st = ⟨st, [], none⟩ := by
  have hg : (st.isSyncing || !st.online) = true := by
    rcases h with h | h <;> rw [h] <;> simp
  unfold processSyncQueue
  rw [if_pos hg]

/-- Witness for C7: a call during an active drain changes nothing. -/
theorem drain_guard_noop_witness :
    processSyncQueue alwaysOk
      { freshState [jobOne] with isSyncing := true } =
      ⟨{ freshState [jobOne] with isSyncing := true }, [], none⟩ :=
  drain_guard_noop alwaysOk { freshState [jobOne] with isSyncing := true }
    (Or.inl rfl)

/-- Claim C8: the periodic purge deletes exactly the jobs whose status
is `completed`; every job with status `pending` or `failed` (or with no
status at all) is left in the store unchanged, regardless of age. -/
theorem purge_removes_only_completed (db : List QueuedJob)
    (hnd : (db.map (fun r => r.id)).Nodup) :
    clearCompletedJobs db =
      db.filter (fun r => !(r.status == some JobStatus.completed)) :=
  clearCompleted_spec db hnd

/-- Witness for C8 on a store with one pending, one failed and one
completed job: only the completed job is removed. -/
theorem purge_removes_only_completed_witness :
    ((([jobOne, jobFailedPrev, jobDone] : List QueuedJob).map
      (fun r => r.id)).Nodup) ∧
    clearCompletedJobs [jobOne, jobFailedPrev, jobDone] =
      [jobOne, jobFailedPrev] :=
  ⟨by decide,
   (purge_removes_only_completed [jobOne, jobFailedPrev, jobDone]
     (by decide)).trans (by decide)⟩

/-- Claim C9, evaluated: the settings dialog saves under localStorage
key `github-settings` with the credential always blanked (the
`rememberToken` flag is dropped before the write), while restoration
reads key `gitwrite-github`, which no writer ever sets — so after a
restart the restore path yields the built-in defaults and nothing the
user saved comes back. -/
theorem settings_not_restored_after_restart :
    (saveGitHubSettings "tok" "alice" "journal" "" "" ""
      (defaultGithubConfig, [])).1.owner = "alice" ∧
    getItem (saveGitHubSettings "tok" "alice" "journal" "" "" ""
      (defaultGithubConfig, [])).2 "gitwrite-github" = none ∧
    ((getItem (saveGitHubSettings "tok" "alice" "journal" "" "" ""
      (defaultGithubConfig, [])).2 "github-settings").map
        (fun g => g.token)) = some "" ∧
    restoreNote (saveGitHubSettings "tok" "alice" "journal" "" "" ""
      (defaultGithubConfig, [])).2 [] = defaultGithubConfig :=
  ⟨rfl, rfl, rfl, rfl⟩

/-- Claim C10: commitToGitHub never lets an exception escape: it always
resolves with a record — `{success:true, data}` exactly when the PUT
response is ok, carrying that response's payload, and
`{success:false, error}` in every other case. -/
theorem commitToGitHub_total (job : QueuedJob) (o : CommitOracle) :
    ((∃ d, commitToGitHub job o = CommitResult.ok d) ∨
      (∃ e, commitToGitHub job o = CommitResult.err e)) ∧
    (∀ d, commitToGitHub job o = CommitResult.ok d →
      ∃ r, o.putFetch = FetchOutcome.resp r ∧ r.ok = true ∧ d = r.data) ∧
    (∀ r, o.putFetch = FetchOutcome.resp r → r.ok = true →
      (∀ m, o.fileFetch ≠ FetchOutcome.netError m) →
      (jsFalsy job.branch = true →
        ∀ m, o.repoFetch ≠ FetchOutcome.netError m) →
      commitToGitHub job o = CommitResult.ok r.data) := by
  refine ⟨?_, ?_, ?_⟩
  · cases h : commitToGitHub job o with
    | ok d => exact Or.inl ⟨d, rfl⟩
    | err e => exact Or.inr ⟨e, rfl⟩
  · intro d hd
    unfold commitToGitHub at hd
    cases htry : commitToGitHubTry job o with
    | ok x =>
      rw [htry] at hd
      have hx : x = d := CommitResult.ok.inj hd
      exact hx ▸ commitToGitHubTry_ok htry
    | error e =>
      rw [htry] at hd
      cases hd
  · intro r hput hok hfile hrepo
    unfold commitToGitHub
    rw [commitToGitHubTry_run hput hok hfile hrepo]

/-- Witness for C10: a job with a branch against an oracle whose PUT
succeeds resolves with the success record. -/
theorem commitToGitHub_total_witness :
    commitToGitHub jobOne happyOracle = CommitResult.ok "committed" :=
  (commitToGitHub_total jobOne happyOracle).2.2
    { ok := true, data := "committed" } rfl rfl
    (fun _ h => FetchOutcome.noConfusion h)
    (fun hfal => absurd hfal (by decide))

end GitWrite
